import Mathlib

/-!
# Verification of the `pcf` tokenizer

Shallow embedding of the tokenizer of the `pcf` configuration-language
crate (`src/lex.rs` together with the diagnostics module `src/utils.rs`),
with theorems checking the crate's specification against the code.

Conventions of the embedding:
* Rust `usize` line/column counters become `Nat` (they only ever grow by 1,
  so overflow is immaterial).
* The source `content : String` is embedded as its list of Unicode scalar
  values (`List Char`), which is exactly what `Source::chars` iterates over.
* Fallible Rust code (`Result`, `str::parse`) becomes `Except` / `Option`.
* The `while let` scanning loop of `lex` becomes a fuel-indexed recursive
  function `lexLoopF`; one unit of fuel per loop iteration.  Since every
  iteration consumes at least one character, fuel `content.length + 1` is
  provably sufficient (`lex_single_pass_terminates` below), so the
  `Option.getD` default in `lex` is never reached.
-/

/-- `Location` from `src/lex.rs` / `src/utils.rs`: 1-indexed line and column. -/
structure Location where
  line : Nat
  col : Nat
deriving DecidableEq

/-- `Location::default()`: line 1, column 1. -/
def Location.start : Location := ⟨1, 1⟩

/-- `Location::new_line`: `line += 1; col = 1` (pure version of the mutation). -/
def Location.newLine (l : Location) : Location := ⟨l.line + 1, 1⟩

/-- `Location::new_col`: `col += 1`. -/
def Location.newCol (l : Location) : Location := ⟨l.line, l.col + 1⟩

/-- The derived lexicographic order on `(line, col)` (Rust `#[derive(PartialOrd, Ord)]`
with `line` the first field). -/
def Location.le (a b : Location) : Prop :=
  a.line < b.line ∨ (a.line = b.line ∧ a.col ≤ b.col)

instance (a b : Location) : Decidable (Location.le a b) := by
  unfold Location.le; infer_instance

/-- `Span` from `src/lex.rs` / `src/utils.rs`.  The Rust field `end` is rendered
`stop` because `end` is a Lean keyword. -/
structure Span where
  begin : Location
  stop : Location
deriving DecidableEq

/-- `Source` from `src/lex.rs`: a file name and its content.  The content is kept
as the list of characters that `Source::chars` yields. -/
structure Source where
  file : String
  content : List Char
deriving DecidableEq

/-- `ErrorKind` from `src/lex.rs` (the error taxonomy used by `lex`). -/
inductive ErrorKind where
  | malformedNumber
  | unrecognizedToken
  | unterminatedString
deriving DecidableEq

/-- `Error` from `src/lex.rs`: the error value returned by `lex`.  The Rust
borrow `src: &'a Source<'a>` is embedded as a copy of the source value. -/
structure LexError where
  span : Span
  src : Source
  kind : ErrorKind
deriving DecidableEq

/-- `LexemeKind` from `src/lex.rs`.  The `f64` payload of `Float` is modelled as
the exact rational value of the parsed decimal text (see `parseF64`). -/
inductive LexemeKind where
  | string (s : List Char)
  | ident (s : List Char)
  | integer (n : Int)
  | float (q : Rat)
  | bool (b : Bool)
  | lbrack
  | rbrack
  | lbrace
  | rbrace
  | equal
  | comma
deriving DecidableEq

/-- `Lexeme` from `src/lex.rs`: a kind paired with its span. -/
structure Lexeme where
  kind : LexemeKind
  span : Span
deriving DecidableEq

/-- Rust `char::is_whitespace`: the Unicode `White_Space` property, whose
member list is reproduced here in full. -/
def charIsWhitespace (c : Char) : Bool :=
  let n := c.toNat
  (0x09 <= n && n <= 0x0d) || n == 0x20 || n == 0x85 || n == 0xa0 || n == 0x1680 ||
  (0x2000 <= n && n <= 0x200a) || n == 0x2028 || n == 0x2029 || n == 0x202f ||
  n == 0x205f || n == 0x3000

/-- Rust `char::is_numeric`: the Unicode categories Nd, Nl, No.  The table is
reproduced for the Basic Latin and Latin-1 Supplement blocks (U+0000..U+00FF):
the ASCII digits and the Latin-1 superscripts and vulgar fractions.  Codepoints
above U+00FF are classified `false`; no claim below depends on the
classification of those codepoints, and the stream-level theorems
(monotonicity, first-error, termination) do not use any property of this
table. -/
def charIsNumeric (c : Char) : Bool :=
  let n := c.toNat
  (0x30 ≤ n && n ≤ 0x39) || n == 0xb2 || n == 0xb3 || n == 0xb9 ||
  n == 0xbc || n == 0xbd || n == 0xbe

/-- Rust `char::is_alphabetic`: the Unicode `Alphabetic` property, reproduced
for U+0000..U+00FF (ASCII letters plus the Latin-1 letters ª µ º À–Ö Ø–ö ø–ÿ).
Codepoints above U+00FF are classified `false`; see `charIsNumeric` for why
this restriction is harmless. -/
def charIsAlphabetic (c : Char) : Bool :=
  let n := c.toNat
  (0x41 ≤ n && n ≤ 0x5a) || (0x61 ≤ n && n ≤ 0x7a) || n == 0xaa || n == 0xb5 ||
  n == 0xba || (0xc0 ≤ n && n ≤ 0xd6) || (0xd8 ≤ n && n ≤ 0xf6) ||
  (0xf8 ≤ n && n ≤ 0xff)

/-- `is_identifier` from `src/lex.rs`: `chr.is_alphanumeric() || chr == '_'`,
where Rust `is_alphanumeric` is `is_alphabetic() || is_numeric()`. -/
def is_identifier (c : Char) : Bool :=
  (charIsAlphabetic c || charIsNumeric c) || c == '_'

/-- `is_numeric_or_symbol` from `src/lex.rs`. -/
def is_numeric_or_symbol (c : Char) : Bool :=
  charIsNumeric c || c == '-' || c == '+' || c == '.'

/-- Value of a list of ASCII digits read in base 10. -/
def digitsVal (cs : List Char) : Nat :=
  cs.foldl (fun a c => a * 10 + (c.toNat - 48)) 0

/-- Body of `parseI64` after the optional sign has been split off: one or more
ASCII digits whose signed value fits in 64 bits. -/
def parseI64core (ds : List Char) (sign : Int) : Option Int :=
  if ds ≠ [] ∧ ds.all (fun c => c.isDigit) then
    let n : Int := sign * (digitsVal ds : Int)
    if -(2 ^ 63) ≤ n ∧ n ≤ 2 ^ 63 - 1 then some n else none
  else none

/-- Rust `str::parse::<i64>` as called by `lex`: an optional `+`/`-` sign
followed by at least one ASCII digit, rejecting values outside the `i64`
range. -/
def parseI64 (cs : List Char) : Option Int :=
  match cs with
  | '+' :: r => parseI64core r 1
  | '-' :: r => parseI64core r (-1)
  | r => parseI64core r 1

/-- Body of `parseF64` after the optional sign: `digits+`, `digits+ '.' digits*`
or `'.' digits+`, evaluated exactly. -/
def parseF64core (cs : List Char) (sign : Rat) : Option Rat :=
  let ip := cs.takeWhile (fun c => c ≠ '.')
  match cs.dropWhile (fun c => c ≠ '.') with
  | [] =>
    if ip ≠ [] ∧ ip.all (fun c => c.isDigit) then
      some (sign * (digitsVal ip : Rat))
    else none
  | _ :: fp =>
    if (ip ≠ [] ∨ fp ≠ []) ∧ ip.all (fun c => c.isDigit) ∧ fp.all (fun c => c.isDigit) then
      some (sign * ((digitsVal ip : Rat) + (digitsVal fp : Rat) / (10 ^ fp.length : Rat)))
    else none

/-- Rust `str::parse::<f64>` as called by `lex`.  The argument is always built
from a leading sign/digit/dot character followed by digits and at most one dot,
so the `inf`/`nan`/exponent forms of the Rust grammar are unreachable and the
accepted shapes are `[+-]? (digits+ | digits+ '.' digits* | '.' digits+)`.
The value is kept as the exact rational of the decimal text rather than being
rounded to an IEEE double: both sides of every claim about a `Float` lexeme
denote the result of parsing the very same text, so the rounding step cancels
and the rational model decides the claims. -/
def parseF64 (cs : List Char) : Option Rat :=
  match cs with
  | '+' :: r => parseF64core r 1
  | '-' :: r => parseF64core r (-1)
  | r => parseF64core r 1

/-- The string-literal loop of the `'"'` arm of `lex` (`for chr in chars`):
`span.end.new_col()` for every consumed character, stopping at the first `"`.
Returns `none` when the cursor is exhausted before a closing quote
(unterminated), otherwise `some (content, rest)`; the second component is the
final `span.end` in either case. -/
def scanString : List Char → Location → Option (List Char × List Char) × Location
  | [], e => (none, e)
  | c :: rest, e =>
    if c = '"' then (some ([], rest), e.newCol)
    else
      match scanString rest e.newCol with
      | (none, ef) => (none, ef)
      | (some (content, r), ef) => (some (c :: content, r), ef)

/-- The number loop of `lex` (`while let Some(&chr) = chars.peek()`): a second
`.` while `dot` is already set aborts with `none` (MalformedNumber); a digit or
the first `.` is consumed and advances the column; anything else stops the
loop without being consumed.  Returns the consumed characters, the final `dot`
flag and the unconsumed rest, with the final `span.end`. -/
def scanNumber : List Char → Bool → Location → Option (List Char × Bool × List Char) × Location
  | [], dot, e => (some ([], dot, []), e)
  | c :: rest, dot, e =>
    if c = '.' then
      if dot then (none, e)
      else
        match scanNumber rest true e.newCol with
        | (none, ef) => (none, ef)
        | (some (cs1, d, r), ef) => (some (c :: cs1, d, r), ef)
    else if charIsNumeric c then
      match scanNumber rest dot e.newCol with
      | (none, ef) => (none, ef)
      | (some (cs1, d, r), ef) => (some (c :: cs1, d, r), ef)
    else (some ([], dot, c :: rest), e)

/-- The identifier loop of `lex`: greedily consume `is_identifier` characters,
advancing the column for each. -/
def scanIdent : List Char → Location → List Char × List Char × Location
  | [], e => ([], [], e)
  | c :: rest, e =>
    if is_identifier c then
      let (cs1, r, ef) := scanIdent rest e.newCol
      (c :: cs1, r, ef)
    else ([], c :: rest, e)

/-- The comment loop of the `'#'` arm of `lex`: consume and discard up to and
including the next newline (which advances the line counter); every other
consumed character advances the column. -/
def scanComment : List Char → Location → List Char × Location
  | [], e => ([], e)
  | c :: rest, e =>
    if c = '\n' then (rest, e.newLine)
    else scanComment rest e.newCol

/-- `lexemes.push_back(..)` followed by the rest of the loop: prepend the
lexeme to a successful continuation, propagate an error (discarding the
lexeme), propagate fuel exhaustion. -/
def pushTok (res : Option (Except LexError (List Lexeme))) (l : Lexeme) :
    Option (Except LexError (List Lexeme)) :=
  match res with
  | none => none
  | some (.error err) => some (.error err)
  | some (.ok ls) => some (.ok (l :: ls))

/-- The `while let Some(tok) = chars.next()` loop of `lex` (`src/lex.rs`),
one unit of fuel per iteration.  The location argument is the running
`span.end`; at the start of each iteration `span.begin` is set to it and
`span.end` advances one column, exactly as in the source.  Returns `none` only
on fuel exhaustion, which never happens with fuel `> cs.length`. -/
def lexLoopF (src : Source) : Nat → List Char → Location → Option (Except LexError (List Lexeme))
  | 0, _, _ => none
  | _ + 1, [], _ => some (.ok [])
  | n + 1, tok :: rest, e0 =>
    let b := e0
    let e := e0.newCol
    if tok = '=' then pushTok (lexLoopF src n rest e) ⟨.equal, ⟨b, e⟩⟩
    else if tok = ',' then pushTok (lexLoopF src n rest e) ⟨.comma, ⟨b, e⟩⟩
    else if tok = '[' then pushTok (lexLoopF src n rest e) ⟨.lbrack, ⟨b, e⟩⟩
    else if tok = ']' then pushTok (lexLoopF src n rest e) ⟨.rbrack, ⟨b, e⟩⟩
    else if tok = '{' then pushTok (lexLoopF src n rest e) ⟨.lbrace, ⟨b, e⟩⟩
    else if tok = '}' then pushTok (lexLoopF src n rest e) ⟨.rbrace, ⟨b, e⟩⟩
    else if tok = '"' then
      match scanString rest e with
      | (none, ef) => some (.error ⟨⟨b, ef⟩, src, .unterminatedString⟩)
      | (some (content, r), ef) =>
        pushTok (lexLoopF src n r ef) ⟨.string content, ⟨b, ef⟩⟩
    else if is_numeric_or_symbol tok then
      match scanNumber rest (tok = '.') e with
      | (none, ef) => some (.error ⟨⟨b, ef⟩, src, .malformedNumber⟩)
      | (some (cs1, dot, r), ef) =>
        if dot then
          match parseF64 (tok :: cs1) with
          | none => some (.error ⟨⟨b, ef⟩, src, .malformedNumber⟩)
          | some q => pushTok (lexLoopF src n r ef) ⟨.float q, ⟨b, ef⟩⟩
        else
          match parseI64 (tok :: cs1) with
          | none => some (.error ⟨⟨b, ef⟩, src, .malformedNumber⟩)
          | some v => pushTok (lexLoopF src n r ef) ⟨.integer v, ⟨b, ef⟩⟩
    else if is_identifier tok then
      match scanIdent rest e with
      | (cs1, r, ef) =>
        let content := tok :: cs1
        let kind : LexemeKind :=
          if content = "true".data then .bool true
          else if content = "false".data then .bool false
          else .ident content
        pushTok (lexLoopF src n r ef) ⟨kind, ⟨b, ef⟩⟩
    else if tok = '#' then
      match scanComment rest e with
      | (r, ef) => lexLoopF src n r ef
    else if tok = '\n' then lexLoopF src n rest e.newLine
    else if charIsWhitespace tok then lexLoopF src n rest e
    else some (.error ⟨⟨b, e⟩, src, .unrecognizedToken⟩)

/-- `lex` from `src/lex.rs`: run the scanning loop from the default span
(`(1,1)-(1,1)`) over the whole content.  Fuel `content.length + 1` provably
suffices (`lex_single_pass_terminates`), so the default is never used. -/
def lex (src : Source) : Except LexError (List Lexeme) :=
  (lexLoopF src (src.content.length + 1) src.content Location.start).getD (.ok [])

/-- `Display for Span` (`src/lex.rs` / `src/utils.rs`): `:<line>:<col>` for a
zero-width span, `:<line> <col1>..<col2>` for a same-line span, and
` <line1>:<col1>..<line2>:<col2>` otherwise. -/
def spanDisplay (s : Span) : String :=
  if s.begin.line = s.stop.line then
    if s.begin.col = s.stop.col then
      ":" ++ toString s.begin.line ++ ":" ++ toString s.begin.col
    else
      ":" ++ toString s.begin.line ++ " " ++ toString s.begin.col ++ ".." ++
        toString s.stop.col
  else
    " " ++ toString s.begin.line ++ ":" ++ toString s.begin.col ++ ".." ++
      toString s.stop.line ++ ":" ++ toString s.stop.col

/-- `Display for ErrorKind` (`src/lex.rs`): `encountered <description>`. -/
def errorKindMsg (k : ErrorKind) : String :=
  "encountered " ++
    match k with
    | .malformedNumber => "malformed number"
    | .unrecognizedToken => "unrecognized token"
    | .unterminatedString => "unterminated string"

/-- `Display for Error` (`src/lex.rs`, the error type `lex` returns):
`[<file><span>] <kind>` — note: no excerpt line. -/
def lexErrorDisplay (e : LexError) : String :=
  "[" ++ e.src.file ++ spanDisplay e.span ++ "] " ++ errorKindMsg e.kind

/-- `ParsingError` from `src/utils.rs`: an empty enum (the parser is
unimplemented). -/
inductive ParsingError where

/-- `ErrorKind` from `src/utils.rs`: the unified lexing/parsing taxonomy.
Its `LexingError` member list coincides with `lex.rs`'s `ErrorKind`, which is
reused here for the `lexing` payload. -/
inductive UtilsErrorKind where
  | lexing (e : ErrorKind)
  | parsing (p : ParsingError)

/-- `Display for ErrorKind` (`src/utils.rs`). -/
def utilsKindMsg (k : UtilsErrorKind) : String :=
  match k with
  | .lexing .malformedNumber => "encountered malformed number during lexing"
  | .lexing .unrecognizedToken => "encountered unrecognized token during lexing"
  | .lexing .unterminatedString => "encountered unterminated string during lexing"
  | .parsing p => nomatch p

/-- `Error` from `src/utils.rs`: the unified error value with the
lexing/parsing kind split. -/
structure UtilsError where
  span : Span
  src : Source
  kind : UtilsErrorKind

/-- The walk of `Source::extract_offset` (`src/utils.rs`): starting from
location (1,1) and byte offset 0, stop as soon as the running location equals
the target, else add the character's UTF-8 length and advance the location
(newline advances the line, anything else the column).  Returns the offset at
exhaustion when the target is never reached. -/
def extractOffsetAux : List Char → Location → Location → Nat
  | [], _, _ => 0
  | c :: cs, loc, tar =>
    if loc.line = tar.line ∧ loc.col = tar.col then 0
    else
      c.utf8Size +
        extractOffsetAux cs (if c = '\n' then loc.newLine else loc.newCol) tar

/-- `Source::extract_offset` from `src/utils.rs`. -/
def extractOffset (src : Source) (tar : Location) : Nat :=
  extractOffsetAux src.content Location.start tar

/-- Drop exactly `a` bytes from the front of a character list; `none` when `a`
is not a character boundary or exceeds the total byte length. -/
def dropBytes : List Char → Nat → Option (List Char)
  | cs, 0 => some cs
  | [], _ + 1 => none
  | c :: cs, n + 1 =>
    if c.utf8Size ≤ n + 1 then dropBytes cs (n + 1 - c.utf8Size) else none

/-- Take exactly `b` bytes from the front of a character list; `none` when `b`
is not a character boundary or exceeds the total byte length. -/
def takeBytes : List Char → Nat → Option (List Char)
  | _, 0 => some []
  | [], _ + 1 => none
  | c :: cs, n + 1 =>
    if c.utf8Size ≤ n + 1 then (takeBytes cs (n + 1 - c.utf8Size)).map (c :: ·)
    else none

/-- Rust `str::get(a..b)`: `some` slice exactly when `a ≤ b`, both offsets are
character boundaries and `b` is within the content; `none` otherwise. -/
def byteSlice (cs : List Char) (a b : Nat) : Option (List Char) :=
  if a ≤ b then (dropBytes cs a).bind (fun r => takeBytes r (b - a)) else none

/-- `Display for Error` (`src/utils.rs`): the bracketed header, the kind
description, a newline, and the source content sliced by the byte offsets of
the span's endpoints — or the fallback placeholder when slicing fails. -/
def utilsErrorDisplay (e : UtilsError) : String :=
  "[" ++ e.src.file ++ spanDisplay e.span ++ "] " ++ utilsKindMsg e.kind ++ "\n" ++
    (match byteSlice e.src.content (extractOffset e.src e.span.begin)
        (extractOffset e.src e.span.stop) with
     | some s => String.mk s
     | none => "<failed to extract offsets of begin and end>")

theorem Location.le_refl (a : Location) : a.le a := by
  unfold Location.le; omega

theorem Location.le_trans {a b c : Location} (h1 : a.le b) (h2 : b.le c) : a.le c := by
  unfold Location.le at h1 h2 ⊢; omega

theorem Location.le_newCol (a : Location) : a.le a.newCol := by
  unfold Location.le Location.newCol
  right; exact ⟨rfl, Nat.le_succ _⟩

theorem Location.le_newLine (a : Location) : a.le a.newLine := by
  unfold Location.le Location.newLine
  left; exact Nat.lt_succ_self _

theorem Location.newCol_line (a : Location) : a.newCol.line = a.line := rfl

theorem scanString_length :
    ∀ (cs : List Char) (e : Location) content r ef,
      scanString cs e = (some (content, r), ef) → r.length ≤ cs.length := by
  intro cs
  induction cs with
  | nil => intro e content r ef h; simp [scanString] at h
  | cons c rest ih =>
    intro e content r ef h
    rw [scanString] at h
    by_cases hc : c = '"'
    · rw [if_pos hc] at h
      simp only [Prod.mk.injEq, Option.some.injEq] at h
      obtain ⟨⟨-, hr⟩, -⟩ := h
      subst hr; exact Nat.le_succ _
    · rw [if_neg hc] at h
      rcases hs : scanString rest e.newCol with ⟨o, ef1⟩
      rw [hs] at h
      rcases o with - | ⟨content1, r1⟩
      · simp at h
      · simp only [Prod.mk.injEq, Option.some.injEq] at h
        obtain ⟨⟨-, hr⟩, hef⟩ := h
        subst hr; subst hef
        exact Nat.le_succ_of_le (ih e.newCol content1 r1 ef1 hs)

theorem scanNumber_length :
    ∀ (cs : List Char) (dot : Bool) (e : Location) cs1 d r ef,
      scanNumber cs dot e = (some (cs1, d, r), ef) → r.length ≤ cs.length := by
  intro cs
  induction cs with
  | nil =>
    intro dot e cs1 d r ef h
    rw [scanNumber] at h
    simp only [Prod.mk.injEq, Option.some.injEq] at h
    obtain ⟨⟨-, -, hr⟩, -⟩ := h
    subst hr; simp
  | cons c rest ih =>
    intro dot e cs1 d r ef h
    rw [scanNumber] at h
    by_cases hc : c = '.'
    · rw [if_pos hc] at h
      by_cases hd : dot
      · simp [hd] at h
      · simp only [hd, if_false, Bool.false_eq_true] at h
        rcases hs : scanNumber rest true e.newCol with ⟨o, ef1⟩
        rw [hs] at h
        rcases o with - | ⟨cs2, d2, r2⟩
        · simp at h
        · simp only [Prod.mk.injEq, Option.some.injEq] at h
          obtain ⟨⟨-, -, hr⟩, hef⟩ := h
          subst hr; subst hef
          exact Nat.le_succ_of_le (ih true e.newCol cs2 d2 r2 ef1 hs)
    · rw [if_neg hc] at h
      by_cases hn : charIsNumeric c
      · rw [if_pos hn] at h
        rcases hs : scanNumber rest dot e.newCol with ⟨o, ef1⟩
        rw [hs] at h
        rcases o with - | ⟨cs2, d2, r2⟩
        · simp at h
        · simp only [Prod.mk.injEq, Option.some.injEq] at h
          obtain ⟨⟨-, -, hr⟩, hef⟩ := h
          subst hr; subst hef
          exact Nat.le_succ_of_le (ih dot e.newCol cs2 d2 r2 ef1 hs)
      · rw [if_neg hn] at h
        simp only [Prod.mk.injEq, Option.some.injEq] at h
        obtain ⟨⟨-, -, hr⟩, -⟩ := h
        subst hr; simp

theorem scanIdent_length :
    ∀ (cs : List Char) (e : Location), (scanIdent cs e).2.1.length ≤ cs.length := by
  intro cs
  induction cs with
  | nil => intro e; simp [scanIdent]
  | cons c rest ih =>
    intro e
    rw [scanIdent]
    by_cases hc : is_identifier c
    · rw [if_pos hc]
      rcases hs : scanIdent rest e.newCol with ⟨cs1, r, ef⟩
      have h1 := ih e.newCol
      rw [hs] at h1
      simpa using Nat.le_succ_of_le h1
    · rw [if_neg hc]

theorem scanComment_length :
    ∀ (cs : List Char) (e : Location), (scanComment cs e).1.length ≤ cs.length := by
  intro cs
  induction cs with
  | nil => intro e; simp [scanComment]
  | cons c rest ih =>
    intro e
    rw [scanComment]
    by_cases hc : c = '\n'
    · rw [if_pos hc]; simp
    · rw [if_neg hc]
      exact Nat.le_succ_of_le (ih e.newCol)

theorem scanString_mono : ∀ (cs : List Char) (e : Location), e.le (scanString cs e).2 := by
  intro cs
  induction cs with
  | nil => intro e; exact Location.le_refl e
  | cons c rest ih =>
    intro e
    rw [scanString]
    by_cases hc : c = '"'
    · rw [if_pos hc]; exact Location.le_newCol e
    · rw [if_neg hc]
      rcases hs : scanString rest e.newCol with ⟨o, ef⟩
      have h1 := ih e.newCol
      rw [hs] at h1
      rcases o with - | ⟨content, r⟩
      · exact Location.le_trans (Location.le_newCol e) h1
      · exact Location.le_trans (Location.le_newCol e) h1

theorem scanString_line : ∀ (cs : List Char) (e : Location),
    (scanString cs e).2.line = e.line := by
  intro cs
  induction cs with
  | nil => intro e; rfl
  | cons c rest ih =>
    intro e
    rw [scanString]
    by_cases hc : c = '"'
    · rw [if_pos hc]; rfl
    · rw [if_neg hc]
      rcases hs : scanString rest e.newCol with ⟨o, ef⟩
      have h1 := ih e.newCol
      rw [hs] at h1
      rcases o with - | ⟨content, r⟩
      · exact h1
      · exact h1

theorem scanNumber_mono : ∀ (cs : List Char) (dot : Bool) (e : Location),
    e.le (scanNumber cs dot e).2 := by
  intro cs
  induction cs with
  | nil => intro dot e; exact Location.le_refl e
  | cons c rest ih =>
    intro dot e
    rw [scanNumber]
    by_cases hc : c = '.'
    · rw [if_pos hc]
      by_cases hd : dot
      · rw [if_pos hd]; exact Location.le_refl e
      · rw [if_neg hd]
        rcases hs : scanNumber rest true e.newCol with ⟨o, ef⟩
        have h1 := ih true e.newCol
        rw [hs] at h1
        rcases o with - | ⟨cs1, d, r⟩
        · exact Location.le_trans (Location.le_newCol e) h1
        · exact Location.le_trans (Location.le_newCol e) h1
    · rw [if_neg hc]
      by_cases hn : charIsNumeric c
      · rw [if_pos hn]
        rcases hs : scanNumber rest dot e.newCol with ⟨o, ef⟩
        have h1 := ih dot e.newCol
        rw [hs] at h1
        rcases o with - | ⟨cs1, d, r⟩
        · exact Location.le_trans (Location.le_newCol e) h1
        · exact Location.le_trans (Location.le_newCol e) h1
      · rw [if_neg hn]; exact Location.le_refl e

theorem scanIdent_mono : ∀ (cs : List Char) (e : Location),
    e.le (scanIdent cs e).2.2 := by
  intro cs
  induction cs with
  | nil => intro e; exact Location.le_refl e
  | cons c rest ih =>
    intro e
    rw [scanIdent]
    by_cases hc : is_identifier c
    · rw [if_pos hc]
      rcases hs : scanIdent rest e.newCol with ⟨cs1, r, ef⟩
      have h1 := ih e.newCol
      rw [hs] at h1
      exact Location.le_trans (Location.le_newCol e) h1
    · rw [if_neg hc]; exact Location.le_refl e

theorem scanComment_mono : ∀ (cs : List Char) (e : Location),
    e.le (scanComment cs e).2 := by
  intro cs
  induction cs with
  | nil => intro e; exact Location.le_refl e
  | cons c rest ih =>
    intro e
    rw [scanComment]
    by_cases hc : c = '\n'
    · rw [if_pos hc]; exact Location.le_newLine e
    · rw [if_neg hc]
      exact Location.le_trans (Location.le_newCol e) (ih e.newCol)

theorem pushTok_eq_ok {res : Option (Except LexError (List Lexeme))} {l : Lexeme}
    {ls2 : List Lexeme} :
    pushTok res l = some (.ok ls2) ↔ ∃ ls, res = some (.ok ls) ∧ ls2 = l :: ls := by
  rcases res with - | (err | ls)
  · simp [pushTok]
  · simp [pushTok]
  · simp [pushTok]; constructor
    · intro h; exact h.symm
    · intro h; exact h.symm

theorem pushTok_eq_error {res : Option (Except LexError (List Lexeme))} {l : Lexeme}
    {err : LexError} :
    pushTok res l = some (.error err) ↔ res = some (.error err) := by
  rcases res with - | (e1 | ls)
  · simp [pushTok]
  · simp [pushTok]
  · simp [pushTok]

theorem pushTok_isSome (res : Option (Except LexError (List Lexeme))) (l : Lexeme) :
    (pushTok res l).isSome = res.isSome := by
  rcases res with - | (e1 | ls) <;> simp [pushTok]

theorem lexLoopF_isSome (src : Source) :
    ∀ (n : Nat) (cs : List Char) (e : Location), cs.length < n →
      (lexLoopF src n cs e).isSome = true := by
  intro n
  induction n with
  | zero => intro cs e h; omega
  | succ n ih =>
    intro cs e h
    match cs with
    | [] => simp [lexLoopF]
    | tok :: rest =>
      have hr : rest.length < n := by simpa using h
      rw [lexLoopF]
      by_cases h1 : tok = '='
      · rw [if_pos h1, pushTok_isSome]; exact ih rest e.newCol hr
      rw [if_neg h1]
      by_cases h2 : tok = ','
      · rw [if_pos h2, pushTok_isSome]; exact ih rest e.newCol hr
      rw [if_neg h2]
      by_cases h3 : tok = '['
      · rw [if_pos h3, pushTok_isSome]; exact ih rest e.newCol hr
      rw [if_neg h3]
      by_cases h4 : tok = ']'
      · rw [if_pos h4, pushTok_isSome]; exact ih rest e.newCol hr
      rw [if_neg h4]
      by_cases h5 : tok = '{'
      · rw [if_pos h5, pushTok_isSome]; exact ih rest e.newCol hr
      rw [if_neg h5]
      by_cases h6 : tok = '}'
      · rw [if_pos h6, pushTok_isSome]; exact ih rest e.newCol hr
      rw [if_neg h6]
      by_cases h7 : tok = '"'
      · rw [if_pos h7]
        rcases hs : scanString rest e.newCol with ⟨o, ef⟩
        rcases o with - | ⟨content, r⟩
        · simp
        · have hl := scanString_length rest e.newCol content r ef hs
          rw [pushTok_isSome]
          exact ih r ef (by omega)
      rw [if_neg h7]
      by_cases h8 : is_numeric_or_symbol tok = true
      · rw [if_pos h8]
        rcases hs : scanNumber rest (tok = '.') e.newCol with ⟨o, ef⟩
        rcases o with - | ⟨cs1, dot, r⟩
        · simp
        · have hl := scanNumber_length rest (tok = '.') e.newCol cs1 dot r ef hs
          dsimp only
          by_cases hd : dot
          · rw [if_pos hd]
            rcases hp : parseF64 (tok :: cs1) with - | q
            · simp
            · rw [pushTok_isSome]; exact ih r ef (by omega)
          · rw [if_neg hd]
            rcases hp : parseI64 (tok :: cs1) with - | v
            · simp
            · rw [pushTok_isSome]; exact ih r ef (by omega)
      rw [if_neg h8]
      by_cases h9 : is_identifier tok = true
      · rw [if_pos h9]
        rcases hs : scanIdent rest e.newCol with ⟨cs1, r, ef⟩
        have hl := scanIdent_length rest e.newCol
        rw [hs] at hl
        rw [pushTok_isSome]
        exact ih r ef (by simp at hl; omega)
      rw [if_neg h9]
      by_cases h10 : tok = '#'
      · rw [if_pos h10]
        rcases hs : scanComment rest e.newCol with ⟨r, ef⟩
        have hl := scanComment_length rest e.newCol
        rw [hs] at hl
        exact ih r ef (by simp at hl; omega)
      rw [if_neg h10]
      by_cases h11 : tok = '\n'
      · rw [if_pos h11]; exact ih rest e.newCol.newLine hr
      rw [if_neg h11]
      by_cases h12 : charIsWhitespace tok = true
      · rw [if_pos h12]; exact ih rest e.newCol hr
      rw [if_neg h12]
      simp

theorem lexLoopF_fuel (src : Source) :
    ∀ (n m : Nat) (cs : List Char) (e : Location), cs.length < n → cs.length < m →
      lexLoopF src n cs e = lexLoopF src m cs e := by
  intro n
  induction n with
  | zero => intro m cs e h; omega
  | succ n ih =>
    intro m cs e h hm
    match m with
    | 0 => omega
    | m + 1 =>
      match cs with
      | [] => simp [lexLoopF]
      | tok :: rest =>
        have hr : rest.length < n := by simpa using h
        have hrm : rest.length < m := by simpa using hm
        rw [lexLoopF]
        rw [lexLoopF]
        by_cases h1 : tok = '='
        · simp only [if_pos h1]; rw [ih m rest e.newCol hr hrm]
        simp only [if_neg h1]
        by_cases h2 : tok = ','
        · simp only [if_pos h2]; rw [ih m rest e.newCol hr hrm]
        simp only [if_neg h2]
        by_cases h3 : tok = '['
        · simp only [if_pos h3]; rw [ih m rest e.newCol hr hrm]
        simp only [if_neg h3]
        by_cases h4 : tok = ']'
        · simp only [if_pos h4]; rw [ih m rest e.newCol hr hrm]
        simp only [if_neg h4]
        by_cases h5 : tok = '{'
        · simp only [if_pos h5]; rw [ih m rest e.newCol hr hrm]
        simp only [if_neg h5]
        by_cases h6 : tok = '}'
        · simp only [if_pos h6]; rw [ih m rest e.newCol hr hrm]
        simp only [if_neg h6]
        by_cases h7 : tok = '"'
        · simp only [if_pos h7]
          rcases hs : scanString rest e.newCol with ⟨o, ef⟩
          rcases o with - | ⟨content, r⟩
          · rfl
          · have hl := scanString_length rest e.newCol content r ef hs
            dsimp only
            rw [ih m r ef (by omega) (by omega)]
        simp only [if_neg h7]
        by_cases h8 : is_numeric_or_symbol tok = true
        · simp only [if_pos h8]
          rcases hs : scanNumber rest (tok = '.') e.newCol with ⟨o, ef⟩
          rcases o with - | ⟨cs1, dot, r⟩
          · rfl
          · have hl := scanNumber_length rest (tok = '.') e.newCol cs1 dot r ef hs
            dsimp only
            by_cases hd : dot
            · simp only [if_pos hd]
              rcases hp : parseF64 (tok :: cs1) with - | q
              · rfl
              · rw [ih m r ef (by omega) (by omega)]
            · simp only [if_neg hd]
              rcases hp : parseI64 (tok :: cs1) with - | v
              · rfl
              · rw [ih m r ef (by omega) (by omega)]
        simp only [if_neg h8]
        by_cases h9 : is_identifier tok = true
        · simp only [if_pos h9]
          rcases hs : scanIdent rest e.newCol with ⟨cs1, r, ef⟩
          have hl := scanIdent_length rest e.newCol
          rw [hs] at hl
          dsimp only
          rw [ih m r ef (by simp at hl; omega) (by simp at hl; omega)]
        simp only [if_neg h9]
        by_cases h10 : tok = '#'
        · simp only [if_pos h10]
          rcases hs : scanComment rest e.newCol with ⟨r, ef⟩
          have hl := scanComment_length rest e.newCol
          rw [hs] at hl
          dsimp only
          rw [ih m r ef (by simp at hl; omega) (by simp at hl; omega)]
        simp only [if_neg h10]
        by_cases h11 : tok = '\n'
        · simp only [if_pos h11]; rw [ih m rest e.newCol.newLine hr hrm]
        simp only [if_neg h11]
        by_cases h12 : charIsWhitespace tok = true
        · simp only [if_pos h12]; rw [ih m rest e.newCol hr hrm]
        simp only [if_neg h12]

/-- The chained well-formedness of an output stream scanned from a starting
location `e`: each lexeme begins no earlier than `e`, has `begin ≤ end`,
a `String` lexeme stays on one line, and the tail is well-formed from the
lexeme's end. -/
def okInv : Location → List Lexeme → Prop
  | _, [] => True
  | e, l :: ls =>
    e.le l.span.begin ∧ l.span.begin.le l.span.stop ∧
      (∀ s, l.kind = .string s → l.span.stop.line = l.span.begin.line) ∧
      okInv l.span.stop ls

theorem okInv_mono : ∀ (ls : List Lexeme) (d e : Location),
    d.le e → okInv e ls → okInv d ls := by
  intro ls d e hde h
  cases ls with
  | nil => trivial
  | cons l ls =>
    obtain ⟨h1, h2, h3, h4⟩ := h
    exact ⟨Location.le_trans hde h1, h2, h3, h4⟩

/-- The well-formedness of an error produced while scanning: it references the
source being scanned, its span is ordered, and an unrecognized-token error
spans exactly one column. -/
def errInv (src : Source) (err : LexError) : Prop :=
  err.src = src ∧ err.span.begin.le err.span.stop ∧
    (err.kind = .unrecognizedToken →
      err.span.stop = ⟨err.span.begin.line, err.span.begin.col + 1⟩)

theorem lex_eq (src : Source) :
    lexLoopF src (src.content.length + 1) src.content Location.start = some (lex src) := by
  have h := lexLoopF_isSome src (src.content.length + 1) src.content Location.start
    (Nat.lt_succ_self _)
  obtain ⟨r, hr⟩ := Option.isSome_iff_exists.mp h
  rw [hr]
  unfold lex
  rw [hr]
  rfl

theorem pushTok_inv {src : Source} {n : Nat} {rest2 : List Char} {e0 ef : Location}
    {k : LexemeKind} {r : Except LexError (List Lexeme)}
    (ih : ∀ (cs : List Char) (e : Location) (r : Except LexError (List Lexeme)),
      lexLoopF src n cs e = some r →
      (∀ ls, r = .ok ls → okInv e ls) ∧ (∀ err, r = .error err → errInv src err))
    (h : pushTok (lexLoopF src n rest2 ef) ⟨k, ⟨e0, ef⟩⟩ = some r)
    (hbe : e0.le ef)
    (hline : ∀ s, k = .string s → ef.line = e0.line) :
    (∀ ls, r = .ok ls → okInv e0 ls) ∧ (∀ err, r = .error err → errInv src err) := by
  constructor
  · intro ls hls
    subst hls
    obtain ⟨ls1, hrec, hcons⟩ := pushTok_eq_ok.mp h
    subst hcons
    exact ⟨Location.le_refl e0, hbe, hline, (ih rest2 ef _ hrec).1 ls1 rfl⟩
  · intro err herr
    subst herr
    exact (ih rest2 ef _ (pushTok_eq_error.mp h)).2 err rfl

theorem skip_inv {src : Source} {n : Nat} {cs2 : List Char} {e0 e2 : Location}
    {r : Except LexError (List Lexeme)}
    (ih : ∀ (cs : List Char) (e : Location) (r : Except LexError (List Lexeme)),
      lexLoopF src n cs e = some r →
      (∀ ls, r = .ok ls → okInv e ls) ∧ (∀ err, r = .error err → errInv src err))
    (h : lexLoopF src n cs2 e2 = some r)
    (hle : e0.le e2) :
    (∀ ls, r = .ok ls → okInv e0 ls) ∧ (∀ err, r = .error err → errInv src err) := by
  constructor
  · intro ls hls
    exact okInv_mono ls e0 e2 hle ((ih cs2 e2 r h).1 ls hls)
  · exact (ih cs2 e2 r h).2

theorem lexLoopF_inv (src : Source) :
    ∀ (n : Nat) (cs : List Char) (e : Location) (r : Except LexError (List Lexeme)),
      lexLoopF src n cs e = some r →
      (∀ ls, r = .ok ls → okInv e ls) ∧ (∀ err, r = .error err → errInv src err) := by
  intro n
  induction n with
  | zero => intro cs e r h; simp [lexLoopF] at h
  | succ n ih =>
    intro cs e r h
    match cs with
    | [] =>
      rw [lexLoopF] at h
      injection h with h1
      subst h1
      constructor
      · intro ls hls; injection hls with h2; subst h2; trivial
      · intro err herr; simp at herr
    | tok :: rest =>
      rw [lexLoopF] at h
      by_cases h1 : tok = '='
      · simp only [if_pos h1] at h
        exact pushTok_inv ih h (Location.le_newCol e) (fun s hs => by simp at hs)
      simp only [if_neg h1] at h
      by_cases h2 : tok = ','
      · simp only [if_pos h2] at h
        exact pushTok_inv ih h (Location.le_newCol e) (fun s hs => by simp at hs)
      simp only [if_neg h2] at h
      by_cases h3 : tok = '['
      · simp only [if_pos h3] at h
        exact pushTok_inv ih h (Location.le_newCol e) (fun s hs => by simp at hs)
      simp only [if_neg h3] at h
      by_cases h4 : tok = ']'
      · simp only [if_pos h4] at h
        exact pushTok_inv ih h (Location.le_newCol e) (fun s hs => by simp at hs)
      simp only [if_neg h4] at h
      by_cases h5 : tok = '{'
      · simp only [if_pos h5] at h
        exact pushTok_inv ih h (Location.le_newCol e) (fun s hs => by simp at hs)
      simp only [if_neg h5] at h
      by_cases h6 : tok = '}'
      · simp only [if_pos h6] at h
        exact pushTok_inv ih h (Location.le_newCol e) (fun s hs => by simp at hs)
      simp only [if_neg h6] at h
      by_cases h7 : tok = '"'
      · simp only [if_pos h7] at h
        rcases hs : scanString rest e.newCol with ⟨o, ef⟩
        rw [hs] at h
        rcases o with - | ⟨content, r1⟩
        · dsimp only at h
          injection h with h9
          subst h9
          constructor
          · intro ls hls; simp at hls
          · intro err herr
            injection herr with h9
            subst h9
            refine ⟨rfl, ?_, fun hk => by simp at hk⟩
            have hm := scanString_mono rest e.newCol
            rw [hs] at hm
            exact Location.le_trans (Location.le_newCol e) hm
        · dsimp only at h
          have hm := scanString_mono rest e.newCol
          have hline := scanString_line rest e.newCol
          rw [hs] at hm hline
          refine pushTok_inv ih h (Location.le_trans (Location.le_newCol e) hm) ?_
          intro s hs2
          exact hline
      simp only [if_neg h7] at h
      by_cases h8 : is_numeric_or_symbol tok = true
      · simp only [if_pos h8] at h
        rcases hs : scanNumber rest (tok = '.') e.newCol with ⟨o, ef⟩
        rw [hs] at h
        have hm := scanNumber_mono rest (tok = '.') e.newCol
        rw [hs] at hm
        have hbe : e.le ef := Location.le_trans (Location.le_newCol e) hm
        rcases o with - | ⟨cs1, dot, r1⟩
        · dsimp only at h
          injection h with h9
          subst h9
          constructor
          · intro ls hls; simp at hls
          · intro err herr
            injection herr with h9
            subst h9
            exact ⟨rfl, hbe, fun hk => by simp at hk⟩
        · dsimp only at h
          by_cases hd : dot = true
          · simp only [if_pos hd] at h
            rcases hp : parseF64 (tok :: cs1) with - | q
            · rw [hp] at h
              injection h with h9
              subst h9
              constructor
              · intro ls hls; simp at hls
              · intro err herr
                injection herr with h9
                subst h9
                exact ⟨rfl, hbe, fun hk => by simp at hk⟩
            · rw [hp] at h
              exact pushTok_inv ih h hbe (fun s hs2 => by simp at hs2)
          · simp only [if_neg hd] at h
            rcases hp : parseI64 (tok :: cs1) with - | v
            · rw [hp] at h
              injection h with h9
              subst h9
              constructor
              · intro ls hls; simp at hls
              · intro err herr
                injection herr with h9
                subst h9
                exact ⟨rfl, hbe, fun hk => by simp at hk⟩
            · rw [hp] at h
              exact pushTok_inv ih h hbe (fun s hs2 => by simp at hs2)
      simp only [if_neg h8] at h
      by_cases h9 : is_identifier tok = true
      · simp only [if_pos h9] at h
        rcases hs : scanIdent rest e.newCol with ⟨cs1, r1, ef⟩
        rw [hs] at h
        dsimp only at h
        have hm := scanIdent_mono rest e.newCol
        rw [hs] at hm
        refine pushTok_inv ih h (Location.le_trans (Location.le_newCol e) hm) ?_
        intro s hs2
        by_cases ht : tok :: cs1 = "true".data
        · simp only [if_pos ht] at hs2; simp at hs2
        · simp only [if_neg ht] at hs2
          by_cases hf : tok :: cs1 = "false".data
          · simp only [if_pos hf] at hs2; simp at hs2
          · simp only [if_neg hf] at hs2; simp at hs2
      simp only [if_neg h9] at h
      by_cases h10 : tok = '#'
      · simp only [if_pos h10] at h
        rcases hs : scanComment rest e.newCol with ⟨r1, ef⟩
        rw [hs] at h
        dsimp only at h
        have hm := scanComment_mono rest e.newCol
        rw [hs] at hm
        exact skip_inv ih h (Location.le_trans (Location.le_newCol e) hm)
      simp only [if_neg h10] at h
      by_cases h11 : tok = '\n'
      · simp only [if_pos h11] at h
        exact skip_inv ih h (Location.le_trans (Location.le_newCol e) (Location.le_newLine e.newCol))
      simp only [if_neg h11] at h
      by_cases h12 : charIsWhitespace tok = true
      · simp only [if_pos h12] at h
        exact skip_inv ih h (Location.le_newCol e)
      simp only [if_neg h12] at h
      injection h with h13
      subst h13
      constructor
      · intro ls hls; simp at hls
      · intro err herr
        injection herr with h13
        subst h13
        exact ⟨rfl, Location.le_newCol e, fun hk => rfl⟩

theorem lex_ok_inv (src : Source) (ls : List Lexeme) (h : lex src = .ok ls) :
    okInv Location.start ls :=
  (lexLoopF_inv src (src.content.length + 1) src.content Location.start (lex src)
    (lex_eq src)).1 ls h

theorem lex_error_inv (src : Source) (err : LexError) (h : lex src = .error err) :
    errInv src err :=
  (lexLoopF_inv src (src.content.length + 1) src.content Location.start (lex src)
    (lex_eq src)).2 err h

theorem okInv_chain : ∀ (ls : List Lexeme) (e : Location), okInv e ls →
    List.Chain' (fun a b => a.span.stop.le b.span.begin) ls := by
  intro ls
  induction ls with
  | nil => intro e h; exact List.chain'_nil
  | cons a tail ih =>
    intro e h
    obtain ⟨h1, h2, h3, h4⟩ := h
    cases tail with
    | nil => simp
    | cons b t => exact List.chain'_cons.mpr ⟨h4.1, ih a.span.stop h4⟩

theorem okInv_wf : ∀ (ls : List Lexeme) (e : Location), okInv e ls →
    ∀ a ∈ ls, a.span.begin.le a.span.stop := by
  intro ls
  induction ls with
  | nil => intro e h a ha; simp at ha
  | cons l tail ih =>
    intro e h a ha
    obtain ⟨h1, h2, h3, h4⟩ := h
    rcases List.mem_cons.mp ha with rfl | hmem
    · exact h2
    · exact ih l.span.stop h4 a hmem

theorem okInv_string_line : ∀ (ls : List Lexeme) (e : Location), okInv e ls →
    ∀ a ∈ ls, ∀ s, a.kind = .string s → a.span.stop.line = a.span.begin.line := by
  intro ls
  induction ls with
  | nil => intro e h a ha; simp at ha
  | cons l tail ih =>
    intro e h a ha
    obtain ⟨h1, h2, h3, h4⟩ := h
    rcases List.mem_cons.mp ha with rfl | hmem
    · exact h3
    · exact ih l.span.stop h4 a hmem

theorem ws_ne (c : Char) (hw : charIsWhitespace c = true) (d : Char)
    (hd : charIsWhitespace d = false) : c ≠ d := by
  intro h
  subst h
  rw [hw] at hd
  exact Bool.noConfusion hd

theorem ws_toNat (c : Char) (hw : charIsWhitespace c = true) :
    (9 ≤ c.toNat ∧ c.toNat ≤ 13) ∨ c.toNat = 0x20 ∨ c.toNat = 0x85 ∨ c.toNat = 0xa0 ∨
      c.toNat = 0x1680 ∨ (0x2000 ≤ c.toNat ∧ c.toNat ≤ 0x200a) ∨ c.toNat = 0x2028 ∨
      c.toNat = 0x2029 ∨ c.toNat = 0x202f ∨ c.toNat = 0x205f ∨ c.toNat = 0x3000 := by
  simp only [charIsWhitespace, Bool.or_eq_true, Bool.and_eq_true, decide_eq_true_eq,
    beq_iff_eq] at hw
  omega

theorem ws_not_numeric (c : Char) (hw : charIsWhitespace c = true) :
    charIsNumeric c = false := by
  have h := ws_toNat c hw
  simp only [charIsNumeric, Bool.or_eq_false_iff, Bool.and_eq_false_iff,
    decide_eq_false_iff_not, beq_eq_false_iff_ne, ne_eq]
  omega

theorem ws_not_alphabetic (c : Char) (hw : charIsWhitespace c = true) :
    charIsAlphabetic c = false := by
  have h := ws_toNat c hw
  simp only [charIsAlphabetic, Bool.or_eq_false_iff, Bool.and_eq_false_iff,
    decide_eq_false_iff_not, beq_eq_false_iff_ne, ne_eq]
  omega

theorem ws_not_nos (c : Char) (hw : charIsWhitespace c = true) :
    is_numeric_or_symbol c = false := by
  simp only [is_numeric_or_symbol, Bool.or_eq_false_iff, beq_eq_false_iff_ne, ne_eq]
  exact ⟨⟨⟨ws_not_numeric c hw, ws_ne c hw '-' (by decide)⟩, ws_ne c hw '+' (by decide)⟩,
    ws_ne c hw '.' (by decide)⟩

theorem ws_not_ident (c : Char) (hw : charIsWhitespace c = true) :
    is_identifier c = false := by
  simp only [is_identifier, Bool.or_eq_false_iff, beq_eq_false_iff_ne, ne_eq]
  exact ⟨⟨ws_not_alphabetic c hw, ws_not_numeric c hw⟩, ws_ne c hw '_' (by decide)⟩

theorem lexLoopF_ws (src : Source) :
    ∀ (n : Nat) (cs : List Char) (e : Location), cs.length < n →
      (∀ c ∈ cs, charIsWhitespace c = true) →
      lexLoopF src n cs e = some (.ok []) := by
  intro n
  induction n with
  | zero => intro cs e h; omega
  | succ n ih =>
    intro cs e h hws
    match cs with
    | [] => rw [lexLoopF]
    | tok :: rest =>
      have hwt : charIsWhitespace tok = true := hws tok (List.mem_cons_self tok rest)
      have hr : rest.length < n := by simpa using h
      have hrest : ∀ c ∈ rest, charIsWhitespace c = true :=
        fun c hc => hws c (List.mem_cons_of_mem _ hc)
      rw [lexLoopF]
      by_cases hn : tok = '\n'
      · subst hn
        simp only [if_neg (by decide : ¬('\n' = '=')), if_neg (by decide : ¬('\n' = ',')),
          if_neg (by decide : ¬('\n' = '[')), if_neg (by decide : ¬('\n' = ']')),
          if_neg (by decide : ¬('\n' = '{')), if_neg (by decide : ¬('\n' = '}')),
          if_neg (by decide : ¬('\n' = '"')),
          if_neg (by decide : ¬(is_numeric_or_symbol '\n' = true)),
          if_neg (by decide : ¬(is_identifier '\n' = true)),
          if_neg (by decide : ¬('\n' = '#')), if_pos (rfl : '\n' = '\n')]
        exact ih rest e.newCol.newLine hr hrest
      · simp only [if_neg (ws_ne tok hwt '=' (by decide)), if_neg (ws_ne tok hwt ',' (by decide)),
          if_neg (ws_ne tok hwt '[' (by decide)), if_neg (ws_ne tok hwt ']' (by decide)),
          if_neg (ws_ne tok hwt '{' (by decide)), if_neg (ws_ne tok hwt '}' (by decide)),
          if_neg (ws_ne tok hwt '"' (by decide)),
          if_neg (by simp [ws_not_nos tok hwt] : ¬(is_numeric_or_symbol tok = true)),
          if_neg (by simp [ws_not_ident tok hwt] : ¬(is_identifier tok = true)),
          if_neg (ws_ne tok hwt '#' (by decide)), if_neg hn, if_pos hwt]
        exact ih rest e.newCol hr hrest

theorem scanComment_all : ∀ (cs : List Char), (∀ c ∈ cs, c ≠ '\n') →
    ∀ (e : Location), (scanComment cs e).1 = [] := by
  intro cs
  induction cs with
  | nil => intro h e; rfl
  | cons c rest ih =>
    intro h e
    rw [scanComment]
    rw [if_neg (h c (List.mem_cons_self c rest))]
    exact ih (fun d hd => h d (List.mem_cons_of_mem _ hd)) e.newCol

theorem lexLoopF_comment (src : Source) :
    ∀ (n : Nat) (cs : List Char) (e : Location), cs.length + 1 < n →
      (∀ c ∈ cs, c ≠ '\n') →
      lexLoopF src n ('#' :: cs) e = some (.ok []) := by
  intro n cs e h hnl
  match n with
  | 0 => omega
  | 1 => omega
  | n + 2 =>
    rw [lexLoopF]
    simp only [if_neg (by decide : ¬('#' = '=')), if_neg (by decide : ¬('#' = ',')),
      if_neg (by decide : ¬('#' = '[')), if_neg (by decide : ¬('#' = ']')),
      if_neg (by decide : ¬('#' = '{')), if_neg (by decide : ¬('#' = '}')),
      if_neg (by decide : ¬('#' = '"')),
      if_neg (by decide : ¬(is_numeric_or_symbol '#' = true)),
      if_neg (by decide : ¬(is_identifier '#' = true)), if_pos (rfl : '#' = '#')]
    rcases hs : scanComment cs e.newCol with ⟨r1, ef⟩
    have hempty := scanComment_all cs hnl e.newCol
    rw [hs] at hempty
    dsimp only at hempty
    subst hempty
    dsimp only
    simp [lexLoopF]

theorem lex_ws (src : Source) (h : ∀ c ∈ src.content, charIsWhitespace c = true) :
    lex src = .ok [] := by
  unfold lex
  rw [lexLoopF_ws src (src.content.length + 1) src.content Location.start
    (Nat.lt_succ_self _) h]
  rfl

theorem lex_comment (f : String) (cs : List Char) (h : ∀ c ∈ cs, c ≠ '\n') :
    lex ⟨f, '#' :: cs⟩ = .ok [] := by
  unfold lex
  rw [lexLoopF_comment ⟨f, '#' :: cs⟩ (('#' :: cs).length + 1) cs Location.start
    (by simp) h]
  rfl

/-- C1 counterexample.  The claim asserts that lexing the 6-character input
`"a\"b"` yields exactly one `String("a\"b")` lexeme.  In the code a `"` always
closes the string — there is no backslash handling in the string loop — so the
escaped quote terminates the first literal and the final quote opens an
unterminated string: the tokenization fails instead of succeeding. -/
theorem lex_escaped_quote_counterexample :
    lex ⟨"f", ['"', 'a', '\\', '"', 'b', '"']⟩ =
      .error ⟨⟨⟨1, 6⟩, ⟨1, 7⟩⟩, ⟨"f", ['"', 'a', '\\', '"', 'b', '"']⟩,
        .unterminatedString⟩ := rfl

/-- C1 amended.  A double quote closes a string literal even when immediately
preceded by a backslash: on the 5-character input `"a\"b` the quote after the
backslash closes the string, giving `String("a\")` then `Ident("b")`; on the
6-character input `"a\"b"` the final quote then opens a string that is never
closed, so lexing fails with `UnterminatedString` at span (1,6)-(1,7). -/
theorem lex_backslash_quote_closes_string :
    lex ⟨"f", ['"', 'a', '\\', '"', 'b']⟩ =
      .ok [⟨.string ['a', '\\'], ⟨⟨1, 1⟩, ⟨1, 5⟩⟩⟩, ⟨.ident ['b'], ⟨⟨1, 5⟩, ⟨1, 6⟩⟩⟩] ∧
    lex ⟨"f", ['"', 'a', '\\', '"', 'b', '"']⟩ =
      .error ⟨⟨⟨1, 6⟩, ⟨1, 7⟩⟩, ⟨"f", ['"', 'a', '\\', '"', 'b', '"']⟩,
        .unterminatedString⟩ :=
  ⟨rfl, rfl⟩

/-- C2 counterexample.  The claim asserts that a `String` lexeme whose text
contains a newline has `span.end.line` strictly greater than
`span.begin.line`.  Lexing `"a\nb"` succeeds with a `String` lexeme containing
a newline whose span stays entirely on line 1 (the string loop advances only
the column, never the line). -/
theorem lex_multiline_string_line_counterexample :
    lex ⟨"f", ['"', 'a', '\n', 'b', '"']⟩ =
      .ok [⟨.string ['a', '\n', 'b'], ⟨⟨1, 1⟩, ⟨1, 6⟩⟩⟩] ∧
    '\n' ∈ ['a', '\n', 'b'] ∧
    (⟨⟨1, 1⟩, ⟨1, 6⟩⟩ : Span).stop.line = (⟨⟨1, 1⟩, ⟨1, 6⟩⟩ : Span).begin.line :=
  ⟨rfl, by decide, rfl⟩

/-- C2 amended.  Newline characters inside a string literal are consumed like
any other character and advance the column counter, not the line counter:
multi-line strings are permitted (the concrete example succeeds and keeps the
newline in the lexeme text), and every `String` lexeme in every successful
output stream satisfies `span.end.line = span.begin.line`. -/
theorem lex_string_newline_advances_column :
    lex ⟨"f", ['"', 'a', '\n', 'b', '"']⟩ =
      .ok [⟨.string ['a', '\n', 'b'], ⟨⟨1, 1⟩, ⟨1, 6⟩⟩⟩] ∧
    (∀ (src : Source) (ls : List Lexeme), lex src = .ok ls →
      ∀ l ∈ ls, ∀ s, l.kind = .string s → l.span.stop.line = l.span.begin.line) :=
  ⟨rfl, fun src ls h l hl s hk =>
    okInv_string_line ls Location.start (lex_ok_inv src ls h) l hl s hk⟩

/-- C2 witness: the amended theorem applied to the concrete multi-line
string. -/
theorem lex_string_newline_advances_column_witness :
    lex ⟨"f", ['"', 'a', '\n', 'b', '"']⟩ =
      .ok [⟨.string ['a', '\n', 'b'], ⟨⟨1, 1⟩, ⟨1, 6⟩⟩⟩] ∧
    (⟨.string ['a', '\n', 'b'], ⟨⟨1, 1⟩, ⟨1, 6⟩⟩⟩ : Lexeme).span.stop.line =
      (⟨.string ['a', '\n', 'b'], ⟨⟨1, 1⟩, ⟨1, 6⟩⟩⟩ : Lexeme).span.begin.line :=
  ⟨rfl, lex_string_newline_advances_column.2 ⟨"f", ['"', 'a', '\n', 'b', '"']⟩
    [⟨.string ['a', '\n', 'b'], ⟨⟨1, 1⟩, ⟨1, 6⟩⟩⟩]
    lex_string_newline_advances_column.1
    ⟨.string ['a', '\n', 'b'], ⟨⟨1, 1⟩, ⟨1, 6⟩⟩⟩ (by simp) ['a', '\n', 'b'] rfl⟩

/-- C3: in every successful output stream adjacent lexemes `a, b` satisfy
`a.span.end ≤ b.span.begin` in the lexicographic (line, col) order, and every
lexeme satisfies `a.span.begin ≤ a.span.end`. -/
theorem lex_span_monotonicity :
    ∀ (src : Source) (ls : List Lexeme), lex src = .ok ls →
      List.Chain' (fun a b => a.span.stop.le b.span.begin) ls ∧
      ∀ a ∈ ls, a.span.begin.le a.span.stop := by
  intro src ls h
  have hinv := lex_ok_inv src ls h
  exact ⟨okInv_chain ls Location.start hinv, okInv_wf ls Location.start hinv⟩

/-- C3 witness: the monotonicity theorem applied to the concrete input
`x=`. -/
theorem lex_span_monotonicity_witness :
    lex ⟨"f", ['x', '=']⟩ =
      .ok [⟨.ident ['x'], ⟨⟨1, 1⟩, ⟨1, 2⟩⟩⟩, ⟨.equal, ⟨⟨1, 2⟩, ⟨1, 3⟩⟩⟩] ∧
    (List.Chain' (fun a b => a.span.stop.le b.span.begin)
        ([⟨.ident ['x'], ⟨⟨1, 1⟩, ⟨1, 2⟩⟩⟩, ⟨.equal, ⟨⟨1, 2⟩, ⟨1, 3⟩⟩⟩] : List Lexeme) ∧
      ∀ a ∈ [(⟨.ident ['x'], ⟨⟨1, 1⟩, ⟨1, 2⟩⟩⟩ : Lexeme), ⟨.equal, ⟨⟨1, 2⟩, ⟨1, 3⟩⟩⟩],
        a.span.begin.le a.span.stop) :=
  ⟨rfl, lex_span_monotonicity ⟨"f", ['x', '=']⟩
    [⟨.ident ['x'], ⟨⟨1, 1⟩, ⟨1, 2⟩⟩⟩, ⟨.equal, ⟨⟨1, 2⟩, ⟨1, 3⟩⟩⟩] rfl⟩

/-- C4: `42` lexes to `Integer(42)`, `3.14` to `Float(3.14)`, `-7` to
`Integer(-7)`, and `1.2.3` fails with `MalformedNumber` whose span (1,1)-(1,4)
covers exactly the number consumed so far (`1.2`). -/
theorem lex_number_examples :
    lex ⟨"f", ['4', '2']⟩ = .ok [⟨.integer 42, ⟨⟨1, 1⟩, ⟨1, 3⟩⟩⟩] ∧
    lex ⟨"f", ['3', '.', '1', '4']⟩ = .ok [⟨.float (3.14 : Rat), ⟨⟨1, 1⟩, ⟨1, 5⟩⟩⟩] ∧
    lex ⟨"f", ['-', '7']⟩ = .ok [⟨.integer (-7), ⟨⟨1, 1⟩, ⟨1, 3⟩⟩⟩] ∧
    lex ⟨"f", ['1', '.', '2', '.', '3']⟩ =
      .error ⟨⟨⟨1, 1⟩, ⟨1, 4⟩⟩, ⟨"f", ['1', '.', '2', '.', '3']⟩, .malformedNumber⟩ := by
  refine ⟨rfl, ?_, rfl, rfl⟩
  have h0 : lex ⟨"f", ['3', '.', '1', '4']⟩ =
      .ok [⟨.float ((1 : Rat) * ((digitsVal ['3'] : Rat) +
        (digitsVal ['1', '4'] : Rat) / ((10 : Rat) ^ (2 : Nat)))), ⟨⟨1, 1⟩, ⟨1, 5⟩⟩⟩] := rfl
  rw [h0]
  have h1 : digitsVal ['3'] = 3 := rfl
  have h2 : digitsVal ['1', '4'] = 14 := rfl
  rw [h1, h2]
  norm_num

/-- C5 counterexample.  The claim asserts that a non-ASCII letter makes `lex`
fail with `UnrecognizedToken`.  `is_identifier` uses Rust's Unicode
`char::is_alphanumeric`, not an ASCII-only class, so the non-ASCII letter `é`
lexes successfully as an identifier. -/
theorem lex_non_ascii_letter_counterexample :
    lex ⟨"f", ['é']⟩ = .ok [⟨.ident ['é'], ⟨⟨1, 1⟩, ⟨1, 2⟩⟩⟩] := rfl

/-- C5 amended.  Identifier lexemes are triggered by Unicode-alphanumeric
characters or `_` (so a non-ASCII letter such as `é` becomes an `Ident`, not
an error); a character outside all recognized classes, such as `@`, fails with
`UnrecognizedToken`, and every `UnrecognizedToken` error spans exactly one
column: `span.end = (begin.line, begin.col + 1)`. -/
theorem lex_identifier_class_unicode :
    lex ⟨"f", ['@']⟩ =
      .error ⟨⟨⟨1, 1⟩, ⟨1, 2⟩⟩, ⟨"f", ['@']⟩, .unrecognizedToken⟩ ∧
    lex ⟨"f", ['é']⟩ = .ok [⟨.ident ['é'], ⟨⟨1, 1⟩, ⟨1, 2⟩⟩⟩] ∧
    (∀ (src : Source) (err : LexError), lex src = .error err →
      err.kind = .unrecognizedToken →
      err.span.stop = ⟨err.span.begin.line, err.span.begin.col + 1⟩) :=
  ⟨rfl, rfl, fun src err h hk => (lex_error_inv src err h).2.2 hk⟩

/-- C5 witness: the amended theorem applied to the concrete `@` input. -/
theorem lex_identifier_class_unicode_witness :
    lex ⟨"f", ['@']⟩ =
      .error ⟨⟨⟨1, 1⟩, ⟨1, 2⟩⟩, ⟨"f", ['@']⟩, .unrecognizedToken⟩ ∧
    (⟨⟨⟨1, 1⟩, ⟨1, 2⟩⟩, ⟨"f", ['@']⟩, .unrecognizedToken⟩ : LexError).span.stop =
      ⟨1, 2⟩ :=
  ⟨rfl, lex_identifier_class_unicode.2.2 ⟨"f", ['@']⟩
    ⟨⟨⟨1, 1⟩, ⟨1, 2⟩⟩, ⟨"f", ['@']⟩, .unrecognizedToken⟩
    lex_identifier_class_unicode.1 rfl⟩

/-- C6 counterexample.  The claim asserts that the Display rendering of the
`Error` value returned by the tokenizer ends with a newline and the offending
substring.  The error type `lex` returns is `lex.rs`'s own `Error`, whose
Display is just `[<file><span-suffix>] <message>` with no excerpt: on input
`@` the rendering is a single line and differs from the claimed form (which
would append `"\n@"`). -/
theorem lex_error_display_counterexample :
    lex ⟨"f", ['@']⟩ =
      .error ⟨⟨⟨1, 1⟩, ⟨1, 2⟩⟩, ⟨"f", ['@']⟩, .unrecognizedToken⟩ ∧
    lexErrorDisplay ⟨⟨⟨1, 1⟩, ⟨1, 2⟩⟩, ⟨"f", ['@']⟩, .unrecognizedToken⟩ =
      "[f:1 1..2] encountered unrecognized token" ∧
    "[f:1 1..2] encountered unrecognized token" ≠
      "[f:1 1..2] encountered unrecognized token" ++ "\n" ++ "@" :=
  ⟨rfl, rfl, by decide⟩

/-- C6 amended.  The `<span-suffix>` forms are as claimed (`:<line>:<col>`
zero-width, `:<line> <col1>..<col2>` same-line, ` <line1>:<col1>..<line2>:<col2>`
multi-line), and the excerpt-plus-fallback rendering described by the claim is
the Display of `utils.rs`'s unified `Error` type: header, kind description, a
newline, then the substring of the content sliced by the byte offsets of the
span's endpoints, or the fallback placeholder when slicing fails.  The `Error`
actually returned by `lex` renders the bracketed header only, with no excerpt
line. -/
theorem error_display_rendering :
    (∀ sp : Span, sp.begin.line = sp.stop.line → sp.begin.col = sp.stop.col →
      spanDisplay sp = ":" ++ toString sp.begin.line ++ ":" ++ toString sp.begin.col) ∧
    (∀ sp : Span, sp.begin.line = sp.stop.line → sp.begin.col ≠ sp.stop.col →
      spanDisplay sp = ":" ++ toString sp.begin.line ++ " " ++ toString sp.begin.col ++
        ".." ++ toString sp.stop.col) ∧
    (∀ sp : Span, sp.begin.line ≠ sp.stop.line →
      spanDisplay sp = " " ++ toString sp.begin.line ++ ":" ++ toString sp.begin.col ++
        ".." ++ toString sp.stop.line ++ ":" ++ toString sp.stop.col) ∧
    (∀ e : LexError, lexErrorDisplay e =
      "[" ++ e.src.file ++ spanDisplay e.span ++ "] " ++ errorKindMsg e.kind) ∧
    (∀ (e : UtilsError) (s : List Char),
      byteSlice e.src.content (extractOffset e.src e.span.begin)
          (extractOffset e.src e.span.stop) = some s →
      utilsErrorDisplay e = "[" ++ e.src.file ++ spanDisplay e.span ++ "] " ++
        utilsKindMsg e.kind ++ "\n" ++ String.mk s) ∧
    (∀ e : UtilsError,
      byteSlice e.src.content (extractOffset e.src e.span.begin)
          (extractOffset e.src e.span.stop) = none →
      utilsErrorDisplay e = "[" ++ e.src.file ++ spanDisplay e.span ++ "] " ++
        utilsKindMsg e.kind ++ "\n" ++ "<failed to extract offsets of begin and end>") := by
  refine ⟨?_, ?_, ?_, ?_, ?_, ?_⟩
  · intro sp h1 h2
    unfold spanDisplay
    rw [if_pos h1, if_pos h2]
  · intro sp h1 h2
    unfold spanDisplay
    rw [if_pos h1, if_neg h2]
  · intro sp h1
    unfold spanDisplay
    rw [if_neg h1]
  · intro e
    rfl
  · intro e s h
    unfold utilsErrorDisplay
    rw [h]
  · intro e h
    unfold utilsErrorDisplay
    rw [h]

/-- C6 witness: the rendering theorem applied to concrete spans and a concrete
utils-style error whose slice succeeds. -/
theorem error_display_rendering_witness :
    spanDisplay ⟨⟨3, 4⟩, ⟨3, 4⟩⟩ = ":" ++ toString 3 ++ ":" ++ toString 4 ∧
    utilsErrorDisplay ⟨⟨⟨1, 1⟩, ⟨1, 2⟩⟩, ⟨"f", ['@']⟩, .lexing .unrecognizedToken⟩ =
      "[" ++ "f" ++ spanDisplay ⟨⟨1, 1⟩, ⟨1, 2⟩⟩ ++ "] " ++
        utilsKindMsg (.lexing .unrecognizedToken) ++ "\n" ++ String.mk ['@'] :=
  ⟨error_display_rendering.1 ⟨⟨3, 4⟩, ⟨3, 4⟩⟩ rfl rfl,
    error_display_rendering.2.2.2.2.1
      ⟨⟨⟨1, 1⟩, ⟨1, 2⟩⟩, ⟨"f", ['@']⟩, .lexing .unrecognizedToken⟩ ['@'] rfl⟩

/-- C7: `lex` returns either a complete lexeme stream or a single error; in
the error case no lexemes are returned (the `Except` carries none), the error
references the scanned source, and its span is ordered.  The halt-at-first-
fault behaviour is structural: the embedded loop propagates the first error
unchanged and discards every lexeme accumulated before it. -/
theorem lex_first_error_or_stream :
    ∀ src : Source, (∃ ls, lex src = .ok ls) ∨
      (∃ err, lex src = .error err ∧ err.src = src ∧
        err.span.begin.le err.span.stop ∧ ∀ ls, lex src ≠ .ok ls) := by
  intro src
  cases h : lex src with
  | ok ls => exact Or.inl ⟨ls, rfl⟩
  | error err =>
    have hi := lex_error_inv src err h
    exact Or.inr ⟨err, rfl, hi.1, hi.2.1, fun ls hls => Except.noConfusion hls⟩

/-- C8: `# comment\nx` lexes to the single `Ident("x")` with span beginning at
line 2; a source consisting only of whitespace characters lexes to the empty
stream, and a source that is one comment with no newline lexes to the empty
stream — comment and whitespace characters never produce lexemes. -/
theorem lex_comments_whitespace_skipped :
    lex ⟨"f", "# comment\nx".data⟩ = .ok [⟨.ident ['x'], ⟨⟨2, 1⟩, ⟨2, 2⟩⟩⟩] ∧
    (∀ src : Source, (∀ c ∈ src.content, charIsWhitespace c = true) →
      lex src = .ok []) ∧
    (∀ (f : String) (cs : List Char), (∀ c ∈ cs, c ≠ '\n') →
      lex ⟨f, '#' :: cs⟩ = .ok []) :=
  ⟨rfl, lex_ws, lex_comment⟩

/-- C8 witness: the skipping theorem applied to a one-space source and a
one-character comment. -/
theorem lex_comments_whitespace_skipped_witness :
    lex ⟨"f", [' ']⟩ = .ok [] ∧ lex ⟨"f", ['#', 'c']⟩ = .ok [] :=
  ⟨lex_comments_whitespace_skipped.2.1 ⟨"f", [' ']⟩ (by decide),
    lex_comments_whitespace_skipped.2.2 "f" ['c'] (by decide)⟩

/-- C9: the scan is a terminating single pass: with any fuel exceeding one
unit per character of the input, the scanning loop completes and returns the
result of `lex` — the loop consumes at least one character per iteration and
never backtracks. -/
theorem lex_single_pass_terminates :
    ∀ (src : Source) (n : Nat), src.content.length < n →
      lexLoopF src n src.content Location.start = some (lex src) := by
  intro src n h
  rw [lexLoopF_fuel src n (src.content.length + 1) src.content Location.start h
    (Nat.lt_succ_self _)]
  exact lex_eq src

/-- C9 witness: the termination theorem applied to a one-character source with
fuel 2. -/
theorem lex_single_pass_terminates_witness :
    (⟨"f", ['x']⟩ : Source).content.length < 2 ∧
    lexLoopF ⟨"f", ['x']⟩ 2 (⟨"f", ['x']⟩ : Source).content Location.start =
      some (lex ⟨"f", ['x']⟩) :=
  ⟨by decide, lex_single_pass_terminates ⟨"f", ['x']⟩ 2 (by decide)⟩

/-- C10: lexing an empty source succeeds with an empty lexeme stream. -/
theorem lex_empty_input : ∀ f : String, lex ⟨f, []⟩ = .ok [] := by
  intro f
  rfl
